import Mathlib

/-!
# File access controller (package `fanotify`, file `faccess_linux.go`)

A shallow embedding of the permission-event core of the controller:
`NewFileAccessCtrl`, the two capability probes, `addDirMarks`,
`monitorFilePermissionEvents`, `handleEvents` and `monitorExit`.

The notifier binding (`Initialize`, `Mark`, `GetEvent`, `Response`, `Close`),
`unix.Poll` and the logger are the environment of these functions.  Every call
the controller makes to them is appended to a trace of `Call`s, and what the
environment answers is scripted: a stream of `Mark` results, a queue of
`GetEvent` results, a list of poll outcomes.  The numeric constants of the
binding are gathered in `Consts` and taken as a parameter.
-/

namespace Fanotify

/-! ## Environment -/

/-- Error numbers as returned by the system-call layer. -/
abbrev Errno := Nat

/-- Constants of the notifier binding and of package `unix` that the controller
names.  Their declarations are not part of `faccess_linux.go`; the embedding is
parametric in them. -/
structure Consts where
  FAN_CLASS_CONTENT : Nat
  FAN_UNLIMITED_MARKS : Nat
  FAN_UNLIMITED_QUEUE : Nat
  FAN_NONBLOCK : Nat
  FAN_MARK_ADD : Nat
  FAN_MARK_REMOVE : Nat
  FAN_OPEN_PERM : Nat
  FAN_OPEN_EXEC_PERM : Nat
  FAN_EVENT_ON_CHILD : Nat
  FANOTIFY_METADATA_VERSION : Nat
  AT_FDCWD : Int
  O_RDONLY : Nat
  O_LARGEFILE : Nat
  POLLIN : Nat
  EINTR : Errno
  EAGAIN : Errno
  deriving DecidableEq, Repr

/-- The values these constants have in the Linux headers on amd64; used to
evaluate the embedding on concrete inputs. -/
def linuxAmd64 : Consts where
  FAN_CLASS_CONTENT := 0x04
  FAN_UNLIMITED_MARKS := 0x20
  FAN_UNLIMITED_QUEUE := 0x10
  FAN_NONBLOCK := 0x02
  FAN_MARK_ADD := 0x01
  FAN_MARK_REMOVE := 0x02
  FAN_OPEN_PERM := 0x10000
  FAN_OPEN_EXEC_PERM := 0x40000
  FAN_EVENT_ON_CHILD := 0x08000000
  FANOTIFY_METADATA_VERSION := 3
  AT_FDCWD := -100
  O_RDONLY := 0
  O_LARGEFILE := 0
  POLLIN := 0x1
  EINTR := 4
  EAGAIN := 11

/-- The notifier handle `*NotifyFD`: the kernel notification file descriptor. -/
structure NotifyFD where
  fd : Int
  deriving DecidableEq, Repr

/-- Modelled from the spec: the declaration of `EventMetadata` is not among the
sources.  An event carries its metadata version, the pid of the originating
process, the event kind bitset and an owned file handle (here the number of
the handle). -/
structure EventMetadata where
  Version : Nat
  Mask : Nat
  File : Nat
  Pid : Int
  deriving DecidableEq, Repr

/-- One event as the environment delivers it, together with what the
environment will answer to the two calls the controller can make on it:
the error of `Response` and the error of `ev.File.Close()`. -/
structure Delivery where
  ev : EventMetadata
  respErr : Option Errno
  closeErr : Option Errno
  deriving DecidableEq, Repr

/-- What one call of `GetEvent` returns. -/
inductive GetEventResult where
  | event (d : Delivery)
  | fail (e : Errno)
  deriving DecidableEq, Repr

/-- What one call of `unix.Poll(pfd, 5000)` returns: the count `n`, the error,
and the bits left in `pfd[0].Revents`. -/
structure PollResult where
  n : Int
  err : Option Errno
  revents : Nat
  deriving DecidableEq, Repr

/-- Levels of the logger. -/
inductive LogLevel where
  | Debug
  | Info
  | Error
  deriving DecidableEq, Repr

/-- The calls the controller makes to its environment, with their arguments
and, where the controller looks at it, the answer.  A log call is recorded by
its level and its message text (fields and format arguments are left out). -/
inductive Call where
  | Log (lvl : LogLevel) (msg : String)
  | Initialize (flags : Nat) (openFlags : Nat) (err : Option Errno)
  | Mark (op : Nat) (mask : Nat) (dirfd : Int) (path : String) (err : Option Errno)
  | Poll (timeout : Nat) (res : PollResult)
  | GetEvent (res : GetEventResult)
  | Lock
  | Response (ev : EventMetadata) (allow : Bool) (err : Option Errno)
  | Unlock
  | FileClose (ev : EventMetadata) (err : Option Errno)
  | Close
  | Go
  deriving DecidableEq, Repr

/-! ## Data model -/

/-- Allowed process group reference. -/
structure faProcGrpRef where
  name : String
  path : String
  ppid : Int
  deriving DecidableEq, Repr

/-- Whitelist per container.  Maps are association lists. -/
structure rootFd where
  pid : Int
  id : String
  setting : String
  group : String
  whlst : List (String × Int)
  dirMonitorList : List String
  allowProcList : List faProcGrpRef
  permitProcGrps : List (Int × faProcGrpRef)
  deriving DecidableEq, Repr

/-- The controller.  `fanfd` is a pointer and may be nil; the mutex is
represented by the `Lock`/`Unlock` calls. -/
structure FileAccessCtrl where
  bEnabled : Bool
  fanfd : Option NotifyFD
  roots : List (String × rootFd)
  lastReportPid : Int
  marks : Int
  cflag : Nat
  deriving DecidableEq, Repr

/-- The text `fmt.Sprintf("/proc/%d/root", pid)`. -/
def procRootMountPoint (pid : Int) : String :=
  "/proc/" ++ toString pid ++ "/root"

/-! ## Capability probes and marks -/

/-- The method `isSupportOpenPerm`: `mk 0` and `mk 1` are the results of the two
`Mark` calls.  Returns the verdict and the calls made. -/
def isSupportOpenPerm (c : Consts) (selfPid : Int) (mk : Nat → Option Errno) :
    Bool × List Call :=
  let path := procRootMountPoint selfPid
  let err := mk 0
  let calls := [Call.Mark c.FAN_MARK_ADD c.FAN_OPEN_PERM c.AT_FDCWD path err,
                Call.Mark c.FAN_MARK_REMOVE c.FAN_OPEN_PERM c.AT_FDCWD path (mk 1)]
  match err with
  | some _ => (false, calls ++ [Call.Log .Debug "FA: FAN_OPEN_PERM not supported"])
  | none => (true, calls)

/-- The method `isSupportExecPerm`, same shape with `FAN_OPEN_EXEC_PERM`. -/
def isSupportExecPerm (c : Consts) (selfPid : Int) (mk : Nat → Option Errno) :
    Bool × List Call :=
  let path := procRootMountPoint selfPid
  let err := mk 0
  let calls := [Call.Mark c.FAN_MARK_ADD c.FAN_OPEN_EXEC_PERM c.AT_FDCWD path err,
                Call.Mark c.FAN_MARK_REMOVE c.FAN_OPEN_EXEC_PERM c.AT_FDCWD path (mk 1)]
  match err with
  | some _ => (false, calls ++ [Call.Log .Debug "FA: FAN_OPEN_EXEC_PERM not supported"])
  | none => (true, calls)

/-- The `range dirs` loop of `addDirMarks`: one `Mark` per directory, then the
log line of its outcome; `mk 0` is the result of the first `Mark`. -/
def addDirMarksLoop (c : Consts) (fa : FileAccessCtrl) (ppath : String) :
    (Nat → Option Errno) → List String → List Call
  | _, [] => []
  | mk, dir :: dirs =>
    let path := ppath ++ dir
    let err := mk 0
    [Call.Mark c.FAN_MARK_ADD (fa.cflag ||| c.FAN_EVENT_ON_CHILD) c.AT_FDCWD path err,
     match err with
     | some _ => Call.Log .Error "FA: add mark failed"
     | none => Call.Log .Debug "FA: add mark ok"]
      ++ addDirMarksLoop c fa ppath (fun k => mk (k + 1)) dirs

/-- The method `addDirMarks`: the result pair and the calls made. -/
def addDirMarks (c : Consts) (fa : FileAccessCtrl) (mk : Nat → Option Errno)
    (pid : Int) (dirs : List String) : (Bool × Nat) × List Call :=
  let ppath := procRootMountPoint pid
  ((true, dirs.length),
   Call.Log .Debug "FA: add dir marks start" :: addDirMarksLoop c fa ppath mk dirs)

/-! ## Construction -/

/-- What `NewFileAccessCtrl` hands back: the controller pointer (nil is `none`),
the flag, and the calls made, `Call.Go` being the start of the pump. -/
structure NewResult where
  fa : Option FileAccessCtrl
  ok : Bool
  calls : List Call

/-- The function `NewFileAccessCtrl`.  `init` is what `Initialize` answers,
`mk` the stream of `Mark` results, `selfPid` what `os.Getpid()` returns. -/
def NewFileAccessCtrl (c : Consts) (selfPid : Int) (init : Except Errno NotifyFD)
    (mk : Nat → Option Errno) : NewResult :=
  let fa : FileAccessCtrl :=
    { bEnabled := false, fanfd := none, roots := [], lastReportPid := 0, marks := 0, cflag := 0 }
  let flags := c.FAN_CLASS_CONTENT ||| c.FAN_UNLIMITED_MARKS ||| c.FAN_UNLIMITED_QUEUE
    ||| c.FAN_NONBLOCK
  let oflags := c.O_RDONLY ||| c.O_LARGEFILE
  let t0 := [Call.Log .Debug "new file access ctrl"]
  match init with
  | .error e =>
    { fa := none, ok := false,
      calls := t0 ++ [Call.Initialize flags oflags (some e), Call.Log .Error "FA: Initialize"] }
  | .ok fn =>
    let fa := { fa with bEnabled := true, fanfd := some fn }
    let t1 := t0 ++ [Call.Initialize flags oflags none, Call.Log .Debug "fa info"]
    let (openOk, tOpen) := isSupportOpenPerm c selfPid mk
    if !openOk then
      { fa := none, ok := false, calls := t1 ++ tOpen }
    else
      let fa := { fa with cflag := c.FAN_OPEN_PERM }
      let (execOk, tExec) := isSupportExecPerm c selfPid (fun k => mk (k + 2))
      let fa := if execOk then { fa with cflag := fa.cflag ||| c.FAN_OPEN_EXEC_PERM } else fa
      let tInfo := if execOk then [Call.Log .Info "FA: ExecPerm is supported"] else []
      let (_, tDir) := addDirMarks c fa (fun k => mk (k + 4)) selfPid ["/root/go"]
      { fa := some fa, ok := true, calls := t1 ++ tOpen ++ tExec ++ tInfo ++ tDir ++ [Call.Go] }

/-! ## Event pump -/

/-- One pass through the body of the loop of `handleEvents` for an event that
`GetEvent` delivered: the answer (only when the metadata version is the
expected one) and the close of the event's file. -/
def handleEvent (c : Consts) (d : Delivery) : List Call :=
  [Call.GetEvent (.event d), Call.Log .Debug "event info"]
    ++ (if d.ev.Version = c.FANOTIFY_METADATA_VERSION then
          [Call.Lock, Call.Response d.ev false d.respErr,
           match d.respErr with
           | some _ => Call.Log .Error "response allow err"
           | none => Call.Log .Debug "response allow ok",
           Call.Unlock]
        else [Call.Log .Error "FA: wrong metadata version"])
    ++ [Call.FileClose d.ev d.closeErr]
    ++ (match d.closeErr with
        | some _ => [Call.Log .Error "ev file close err."]
        | none => [])

/-- The method `handleEvents`.  `pending` is what the successive `GetEvent`
calls answer; the notifier is opened non-blocking, so reading an empty queue
fails with `EAGAIN`.  Returns the calls made and what is left of the queue. -/
def handleEvents (c : Consts) (fa : FileAccessCtrl) :
    List GetEventResult → List Call × List GetEventResult
  | [] =>
    if fa.bEnabled then
      ([Call.GetEvent (.fail c.EAGAIN), Call.Log .Error "handle event err"], [])
    else ([], [])
  | r :: rest =>
    if fa.bEnabled then
      match r with
      | .fail e => ([Call.GetEvent (.fail e), Call.Log .Error "handle event err"], rest)
      | .event d =>
        let (calls, left) := handleEvents c fa rest
        (handleEvent c d ++ calls, left)
    else ([], r :: rest)

/-- The method `monitorExit`. -/
def monitorExit (fa : FileAccessCtrl) : List Call :=
  match fa.fanfd with
  | some _ => [Call.Close]
  | none => []

/-- One turn of the loop of `monitorFilePermissionEvents`: what the
environment presents to it.  `bEnabled` is the value of the controller's flag
during the turn, `pending` the queue `GetEvent` reads from. -/
structure Tick where
  poll : PollResult
  bEnabled : Bool
  pending : List GetEventResult
  deriving DecidableEq, Repr

/-- One turn of the `for` loop of `monitorFilePermissionEvents`, from the
`Poll` call to the `break` or the next turn.  Returns the calls made and
`none` for `break`, `some waitCnt` for the counter the next turn starts with. -/
def monitorStep (c : Consts) (fa : FileAccessCtrl) (waitCnt : Nat) (p : PollResult)
    (pending : List GetEventResult) : List Call × Option Nat :=
  let t0 := [Call.Poll 5000 p, Call.Log .Debug "poll get event:%d"]
  if p.err ≠ none ∧ p.err ≠ some c.EINTR then
    (t0 ++ [Call.Log .Error "FA: poll returns error"], none)
  else if p.n ≤ 0 then
    if p.n = 0 ∧ !fa.bEnabled then
      if waitCnt + 1 > 1 then (t0, none) else (t0, some (waitCnt + 1))
    else (t0, some waitCnt)
  else
    let t1 := t0 ++ [Call.Log .Debug "poll event:%+v"]
    if p.revents &&& c.POLLIN ≠ 0 then
      (t1 ++ (handleEvents c fa pending).1, some 0)
    else (t1, some waitCnt)

/-- The `for` loop of `monitorFilePermissionEvents` run over a list of turns.
Returns the calls made and whether the loop was left (`false`: the listed
turns are used up and the loop is still running). -/
def monitorLoop (c : Consts) (fa : FileAccessCtrl) : Nat → List Tick → List Call × Bool
  | _, [] => ([], false)
  | waitCnt, t :: ts =>
    match monitorStep c { fa with bEnabled := t.bEnabled } waitCnt t.poll t.pending with
    | (calls, none) => (calls, true)
    | (calls, some w) =>
      let (more, left) := monitorLoop c fa w ts
      (calls ++ more, left)

/-- The method `monitorFilePermissionEvents` run over a list of turns: the
loop, and once it is left `monitorExit` and the last log line.  Filling in
`pfd` (`GetFd` reads the descriptor out of the handle) makes no call to the
environment and leaves no entry in the trace. -/
def monitorFilePermissionEvents (c : Consts) (fa : FileAccessCtrl) (ticks : List Tick) :
    List Call × Bool :=
  let (calls, left) := monitorLoop c fa 0 ticks
  if left then
    (Call.Log .Info "FA: start" :: calls ++ monitorExit fa ++ [Call.Log .Info "FA: exit"], true)
  else (Call.Log .Info "FA: start" :: calls, false)

/-! ## Reading traces -/

/-- The event and the verdict of a `Response` call. -/
def Call.response? : Call → Option (EventMetadata × Bool)
  | .Response ev allow _ => some (ev, allow)
  | _ => none

/-- The answers of a trace, in the order they were sent. -/
def responses (tr : List Call) : List (EventMetadata × Bool) :=
  tr.filterMap Call.response?

/-- What a `GetEvent` call returned. -/
def Call.read? : Call → Option GetEventResult
  | .GetEvent r => some r
  | _ => none

/-- The results of the `GetEvent` calls of a trace, in order. -/
def reads (tr : List Call) : List GetEventResult :=
  tr.filterMap Call.read?

/-- The event whose file a `FileClose` call closes. -/
def Call.closedFile? : Call → Option EventMetadata
  | .FileClose ev _ => some ev
  | _ => none

/-- The events whose files a trace closes, in order. -/
def fileCloses (tr : List Call) : List EventMetadata :=
  tr.filterMap Call.closedFile?

/-- Whether a call is a `Mark`. -/
def Call.isMark : Call → Bool
  | .Mark _ _ _ _ _ => true
  | _ => false

/-- The `Mark` calls of a trace, in order. -/
def markCalls (tr : List Call) : List Call :=
  tr.filter Call.isMark

/-- Whether a call is an operation on the notifier. -/
def Call.isNotifierOp : Call → Bool
  | .Initialize _ _ _ => true
  | .Mark _ _ _ _ _ => true
  | .GetEvent _ => true
  | .Response _ _ _ => true
  | .Close => true
  | _ => false

/-- Where the pump stands with the file handle of the event it read last:
no event in hand, or the event whose file is still open. -/
inductive FileState where
  | idle
  | held (ev : EventMetadata)
  deriving DecidableEq, Repr

/-- The discipline of event file handles, as an automaton over calls: an event
may be read only with no event in hand; an answer may be sent and a file
closed only for the event in hand; closing puts the event out of hand, so a
second close of it, or an answer after the close, is refused (`none`). -/
def fileStep : FileState → Call → Option FileState
  | .idle, .GetEvent (.event d) => some (.held d.ev)
  | .idle, .GetEvent (.fail _) => some .idle
  | .held _, .GetEvent _ => none
  | .idle, .Response _ _ _ => none
  | .held ev, .Response ev' _ _ => if ev' = ev then some (.held ev) else none
  | .idle, .FileClose _ _ => none
  | .held ev, .FileClose ev' _ => if ev' = ev then some .idle else none
  | s, _ => some s

/-- Running the automaton over a trace. -/
def fileRun : FileState → List Call → Option FileState
  | s, [] => some s
  | s, x :: tr =>
    match fileStep s x with
    | none => none
    | some s' => fileRun s' tr

/-- The counter with which the loop of `monitorFilePermissionEvents` stands
after the listed turns, `none` when it has been left. -/
def loopState (c : Consts) (fa : FileAccessCtrl) : Nat → List Tick → Option Nat
  | w, [] => some w
  | w, t :: ts =>
    match (monitorStep c { fa with bEnabled := t.bEnabled } w t.poll t.pending).2 with
    | none => none
    | some w' => loopState c fa w' ts

/-- A poll result as the system-call layer produces it: an error comes with
the count `-1`. -/
def PollResult.wf (p : PollResult) : Prop :=
  p.err ≠ none → p.n = -1

/-- A turn on which the events are handled: the poll reports a descriptor
with `POLLIN` set. -/
def Tick.handled (c : Consts) (t : Tick) : Prop :=
  0 < t.poll.n ∧ t.poll.revents &&& c.POLLIN ≠ 0

/-- The event a successful read delivered. -/
def GetEventResult.event? : GetEventResult → Option EventMetadata
  | .event d => some d.ev
  | .fail _ => none

/-- The events a trace read from the notifier, in order. -/
def eventsRead (tr : List Call) : List EventMetadata :=
  (reads tr).filterMap GetEventResult.event?

/-! ## Sample inputs -/

/-- An enabled controller as `NewFileAccessCtrl` builds it. -/
def faEnabled : FileAccessCtrl :=
  { bEnabled := true, fanfd := some ⟨3⟩, roots := [], lastReportPid := 0, marks := 0,
    cflag := 0x10000 }

/-- The same controller after its flag was cleared. -/
def faDraining : FileAccessCtrl :=
  { faEnabled with bEnabled := false }

/-- An open-permission event of pid 500 with the expected metadata version. -/
def evGood : Delivery :=
  { ev := { Version := 3, Mask := 0x10000, File := 7, Pid := 500 },
    respErr := none, closeErr := none }

/-- An event with metadata version 2. -/
def evOld : Delivery :=
  { ev := { Version := 2, Mask := 0x10000, File := 8, Pid := 501 },
    respErr := none, closeErr := none }

/-- An event whose answer cannot be written and whose file fails to close. -/
def evBroken : Delivery :=
  { ev := { Version := 3, Mask := 0x40000, File := 9, Pid := 502 },
    respErr := some 9, closeErr := some 9 }

/-- A poll that timed out. -/
def pollTimeout : PollResult := { n := 0, err := none, revents := 0 }

/-- A poll interrupted by a signal. -/
def pollEintr : PollResult := { n := -1, err := some 4, revents := 0 }

/-- A poll that failed with `EBADF`. -/
def pollError : PollResult := { n := -1, err := some 9, revents := 0 }

/-- A poll that found the notifier readable. -/
def pollReadable : PollResult := { n := 1, err := none, revents := 1 }

/-- A turn while draining on which the poll timed out. -/
def tickDrainTimeout : Tick := { poll := pollTimeout, bEnabled := false, pending := [] }

/-- A turn while draining on which the poll was interrupted by a signal. -/
def tickDrainEintr : Tick := { poll := pollEintr, bEnabled := false, pending := [] }

/-- A turn while enabled on which the poll timed out. -/
def tickTimeout : Tick := { poll := pollTimeout, bEnabled := true, pending := [] }

/-- A turn while enabled on which one event is waiting. -/
def tickEvent : Tick := { poll := pollReadable, bEnabled := true, pending := [.event evGood] }

/-- A turn on which the poll failed with `EBADF`. -/
def tickError : Tick := { poll := pollError, bEnabled := true, pending := [] }

/-! ## Lemmas on `handleEvents` -/

theorem responses_append (a b : List Call) :
    responses (a ++ b) = responses a ++ responses b := by
  simp [responses, List.filterMap_append]

theorem reads_append (a b : List Call) : reads (a ++ b) = reads a ++ reads b := by
  simp [reads, List.filterMap_append]

theorem fileCloses_append (a b : List Call) :
    fileCloses (a ++ b) = fileCloses a ++ fileCloses b := by
  simp [fileCloses, List.filterMap_append]

theorem responses_handleEvent (c : Consts) (d : Delivery) :
    responses (handleEvent c d) =
      if d.ev.Version = c.FANOTIFY_METADATA_VERSION then [(d.ev, false)] else [] := by
  unfold handleEvent
  by_cases h : d.ev.Version = c.FANOTIFY_METADATA_VERSION
  · cases hr : d.respErr <;> cases hc : d.closeErr <;>
      simp [h, responses, Call.response?, List.filterMap_cons]
  · cases hc : d.closeErr <;> simp [h, responses, Call.response?, List.filterMap_cons]

theorem reads_handleEvent (c : Consts) (d : Delivery) :
    reads (handleEvent c d) = [.event d] := by
  unfold handleEvent
  by_cases h : d.ev.Version = c.FANOTIFY_METADATA_VERSION
  · cases hr : d.respErr <;> cases hc : d.closeErr <;>
      simp [h, reads, Call.read?, List.filterMap_cons]
  · cases hc : d.closeErr <;> simp [h, reads, Call.read?, List.filterMap_cons]

theorem fileCloses_handleEvent (c : Consts) (d : Delivery) :
    fileCloses (handleEvent c d) = [d.ev] := by
  unfold handleEvent
  by_cases h : d.ev.Version = c.FANOTIFY_METADATA_VERSION
  · cases hr : d.respErr <;> cases hc : d.closeErr <;>
      simp [h, fileCloses, Call.closedFile?, List.filterMap_cons]
  · cases hc : d.closeErr <;> simp [h, fileCloses, Call.closedFile?, List.filterMap_cons]

theorem handleEvents_cons_event (c : Consts) (fa : FileAccessCtrl) (d : Delivery)
    (rest : List GetEventResult) (h : fa.bEnabled = true) :
    handleEvents c fa (.event d :: rest) =
      (handleEvent c d ++ (handleEvents c fa rest).1, (handleEvents c fa rest).2) := by
  simp [handleEvents, h]

theorem handleEvents_disabled (c : Consts) (fa : FileAccessCtrl)
    (pending : List GetEventResult) (h : fa.bEnabled = false) :
    handleEvents c fa pending = ([], pending) := by
  cases pending <;> simp [handleEvents, h]

theorem handleEvents_nil (c : Consts) (fa : FileAccessCtrl) (h : fa.bEnabled = true) :
    handleEvents c fa [] =
      ([Call.GetEvent (.fail c.EAGAIN), Call.Log .Error "handle event err"], []) := by
  simp [handleEvents, h]

theorem handleEvents_cons_fail (c : Consts) (fa : FileAccessCtrl) (e : Errno)
    (rest : List GetEventResult) (h : fa.bEnabled = true) :
    handleEvents c fa (.fail e :: rest) =
      ([Call.GetEvent (.fail e), Call.Log .Error "handle event err"], rest) := by
  simp [handleEvents, h]

/-- Every answer `handleEvents` sends is for an event of the expected version
and carries the verdict `false`. -/
theorem responses_handleEvents (c : Consts) (fa : FileAccessCtrl)
    (pending : List GetEventResult) :
    ∀ r ∈ responses (handleEvents c fa pending).1,
      r.1.Version = c.FANOTIFY_METADATA_VERSION ∧ r.2 = false := by
  cases hb : fa.bEnabled with
  | false => simp [handleEvents_disabled c fa pending hb, responses]
  | true =>
    induction pending with
    | nil => simp [handleEvents_nil c fa hb, responses, Call.response?]
    | cons r rest ih =>
      cases r with
      | fail e => simp [handleEvents_cons_fail c fa e rest hb, responses, Call.response?]
      | event d =>
        rw [handleEvents_cons_event c fa d rest hb]
        intro r hr
        simp only [responses_append, List.mem_append] at hr
        rcases hr with hr | hr
        · rw [responses_handleEvent] at hr
          by_cases hv : d.ev.Version = c.FANOTIFY_METADATA_VERSION
          · simp only [hv, if_true, List.mem_singleton] at hr
            subst hr
            exact ⟨hv, rfl⟩
          · simp [hv] at hr
        · exact ih r hr

theorem mem_handleEvent_fileClose (c : Consts) (d : Delivery) :
    Call.FileClose d.ev d.closeErr ∈ handleEvent c d := by
  simp [handleEvent]

theorem getEvent_mem_handleEvent (c : Consts) (d d' : Delivery)
    (h : Call.GetEvent (.event d') ∈ handleEvent c d) : d' = d := by
  have : GetEventResult.event d' ∈ reads (handleEvent c d) := by
    simp only [reads, List.mem_filterMap]
    exact ⟨_, h, rfl⟩
  rw [reads_handleEvent] at this
  simpa using this

/-- The file of every event `handleEvents` reads is closed in the same call. -/
theorem fileClose_of_getEvent (c : Consts) (fa : FileAccessCtrl)
    (pending : List GetEventResult) (d : Delivery)
    (h : Call.GetEvent (.event d) ∈ (handleEvents c fa pending).1) :
    Call.FileClose d.ev d.closeErr ∈ (handleEvents c fa pending).1 := by
  cases hb : fa.bEnabled with
  | false => simp [handleEvents_disabled c fa pending hb] at h
  | true =>
    induction pending with
    | nil => simp [handleEvents_nil c fa hb] at h
    | cons r rest ih =>
      cases r with
      | fail e => simp [handleEvents_cons_fail c fa e rest hb] at h
      | event d0 =>
        rw [handleEvents_cons_event c fa d0 rest hb] at h ⊢
        simp only [List.mem_append] at h ⊢
        rcases h with h | h
        · have := getEvent_mem_handleEvent c d0 d h
          subst this
          exact Or.inl (mem_handleEvent_fileClose c d)
        · exact Or.inr (ih h)

/-- The calls made for an event of another metadata version, from its read to
the close of its file: the two log lines and nothing else in between. -/
theorem mismatch_block_of_getEvent (c : Consts) (fa : FileAccessCtrl)
    (pending : List GetEventResult) (d : Delivery)
    (h : Call.GetEvent (.event d) ∈ (handleEvents c fa pending).1)
    (hver : d.ev.Version ≠ c.FANOTIFY_METADATA_VERSION) :
    ∃ before after, (handleEvents c fa pending).1 =
      before ++ [Call.GetEvent (.event d), Call.Log .Debug "event info",
                 Call.Log .Error "FA: wrong metadata version",
                 Call.FileClose d.ev d.closeErr] ++ after := by
  cases hb : fa.bEnabled with
  | false => simp [handleEvents_disabled c fa pending hb] at h
  | true =>
    induction pending with
    | nil => simp [handleEvents_nil c fa hb] at h
    | cons r rest ih =>
      cases r with
      | fail e => simp [handleEvents_cons_fail c fa e rest hb] at h
      | event d0 =>
        rw [handleEvents_cons_event c fa d0 rest hb] at h ⊢
        simp only [List.mem_append] at h
        rcases h with h | h
        · have := getEvent_mem_handleEvent c d0 d h
          subst this
          refine ⟨[], (match d.closeErr with
                       | some _ => [Call.Log .Error "ev file close err."]
                       | none => []) ++ (handleEvents c fa rest).1, ?_⟩
          simp [handleEvent, hver]
        · obtain ⟨before, after, heq⟩ := ih h
          refine ⟨handleEvent c d0 ++ before, after, ?_⟩
          rw [heq]
          simp

theorem fileRun_append (s : FileState) (a b : List Call) :
    fileRun s (a ++ b) = (fileRun s a).bind fun s' => fileRun s' b := by
  induction a generalizing s with
  | nil => simp [fileRun]
  | cons x a ih =>
    simp only [List.cons_append, fileRun]
    cases fileStep s x with
    | none => simp
    | some s' => simpa using ih s'

theorem fileRun_handleEvent (c : Consts) (d : Delivery) :
    fileRun .idle (handleEvent c d) = some .idle := by
  unfold handleEvent
  by_cases h : d.ev.Version = c.FANOTIFY_METADATA_VERSION
  · cases hr : d.respErr <;> cases hc : d.closeErr <;> simp [h, fileRun, fileStep]
  · cases hc : d.closeErr <;> simp [h, fileRun, fileStep]

/-- What `handleEvents` does with a queue that starts with events of the
expected version followed by a failing read. -/
theorem handleEvents_events_then_fail (c : Consts) (fa : FileAccessCtrl)
    (hb : fa.bEnabled = true) (ds : List Delivery) (e : Errno) (rest : List GetEventResult) :
    (handleEvents c fa (ds.map .event ++ .fail e :: rest)).2 = rest ∧
    reads (handleEvents c fa (ds.map .event ++ .fail e :: rest)).1
      = ds.map .event ++ [.fail e] ∧
    responses (handleEvents c fa (ds.map .event ++ .fail e :: rest)).1
      = (ds.filter fun d => d.ev.Version = c.FANOTIFY_METADATA_VERSION).map
          fun d => (d.ev, false) := by
  induction ds with
  | nil =>
    simp [handleEvents_cons_fail c fa e rest hb, reads, responses, Call.read?, Call.response?]
  | cons d ds ih =>
    obtain ⟨h1, h2, h3⟩ := ih
    simp only [List.map_cons, List.cons_append]
    rw [handleEvents_cons_event c fa d _ hb]
    refine ⟨h1, ?_, ?_⟩
    · simp [reads_append, reads_handleEvent, h2]
    · simp only [responses_append, responses_handleEvent, h3]
      by_cases hv : d.ev.Version = c.FANOTIFY_METADATA_VERSION
      · simp [List.filter_cons, hv]
      · simp [List.filter_cons, hv]

/-- The same for a queue that holds events only: the read that finds it empty
fails with `EAGAIN`. -/
theorem handleEvents_events_only (c : Consts) (fa : FileAccessCtrl)
    (hb : fa.bEnabled = true) (ds : List Delivery) :
    (handleEvents c fa (ds.map .event)).2 = [] ∧
    reads (handleEvents c fa (ds.map .event)).1 = ds.map .event ++ [.fail c.EAGAIN] ∧
    responses (handleEvents c fa (ds.map .event)).1
      = (ds.filter fun d => d.ev.Version = c.FANOTIFY_METADATA_VERSION).map
          fun d => (d.ev, false) := by
  induction ds with
  | nil =>
    simp [handleEvents_nil c fa hb, reads, responses, Call.read?, Call.response?]
  | cons d ds ih =>
    obtain ⟨h1, h2, h3⟩ := ih
    simp only [List.map_cons]
    rw [handleEvents_cons_event c fa d _ hb]
    refine ⟨h1, ?_, ?_⟩
    · simp [reads_append, reads_handleEvent, h2]
    · simp only [responses_append, responses_handleEvent, h3]
      by_cases hv : d.ev.Version = c.FANOTIFY_METADATA_VERSION
      · simp [List.filter_cons, hv]
      · simp [List.filter_cons, hv]

theorem filter_version_of_all (c : Consts) (ds : List Delivery)
    (hv : ∀ d ∈ ds, d.ev.Version = c.FANOTIFY_METADATA_VERSION) :
    (ds.filter fun d => d.ev.Version = c.FANOTIFY_METADATA_VERSION) = ds := by
  rw [List.filter_eq_self]
  intro d hd
  simpa using hv d hd

theorem fileRun_handleEvents (c : Consts) (fa : FileAccessCtrl)
    (pending : List GetEventResult) :
    fileRun .idle (handleEvents c fa pending).1 = some .idle := by
  cases hb : fa.bEnabled with
  | false => simp [handleEvents_disabled c fa pending hb, fileRun]
  | true =>
    induction pending with
    | nil => simp [handleEvents_nil c fa hb, fileRun, fileStep]
    | cons r rest ih =>
      cases r with
      | fail e => simp [handleEvents_cons_fail c fa e rest hb, fileRun, fileStep]
      | event d =>
        rw [handleEvents_cons_event c fa d rest hb]
        simp [fileRun_append, fileRun_handleEvent, ih]

theorem fileCloses_handleEvents (c : Consts) (fa : FileAccessCtrl)
    (pending : List GetEventResult) :
    fileCloses (handleEvents c fa pending).1 = eventsRead (handleEvents c fa pending).1 := by
  cases hb : fa.bEnabled with
  | false => simp [handleEvents_disabled c fa pending hb, fileCloses, eventsRead, reads]
  | true =>
    induction pending with
    | nil =>
      simp [handleEvents_nil c fa hb, fileCloses, eventsRead, reads, Call.closedFile?,
        Call.read?, GetEventResult.event?]
    | cons r rest ih =>
      cases r with
      | fail e =>
        simp [handleEvents_cons_fail c fa e rest hb, fileCloses, eventsRead, reads,
          Call.closedFile?, Call.read?, GetEventResult.event?]
      | event d =>
        rw [handleEvents_cons_event c fa d rest hb]
        simp only [fileCloses_append, fileCloses_handleEvent, ih, eventsRead, reads_append,
          reads_handleEvent, List.filterMap_append]
        simp [GetEventResult.event?]

/-! ## The claims on `handleEvents` -/

/-- C1, counterexample: an enabled controller (expected metadata version 3)
reads an event of metadata version 2; the event is read and its file closed,
and no response is sent, in particular no allow response. -/
theorem handleEvents_old_version_unanswered :
    evOld.ev.Version ≠ linuxAmd64.FANOTIFY_METADATA_VERSION ∧
    Call.GetEvent (.event evOld) ∈ (handleEvents linuxAmd64 faEnabled [.event evOld]).1 ∧
    (evOld.ev, true) ∉ responses (handleEvents linuxAmd64 faEnabled [.event evOld]).1 ∧
    responses (handleEvents linuxAmd64 faEnabled [.event evOld]).1 = [] := by
  decide

/-- C1, amended: for every event that `handleEvents` reads whose metadata
version differs from `FANOTIFY_METADATA_VERSION`, no response (neither allow
nor deny) is sent for that event; the mismatch is logged (the error line
"FA: wrong metadata version" comes right after the event's read and its
"event info" line) and the event's file handle is closed right after it. -/
theorem handleEvents_version_mismatch (c : Consts) (fa : FileAccessCtrl)
    (pending : List GetEventResult) (d : Delivery)
    (hread : Call.GetEvent (.event d) ∈ (handleEvents c fa pending).1)
    (hver : d.ev.Version ≠ c.FANOTIFY_METADATA_VERSION) :
    (∀ allow err, Call.Response d.ev allow err ∉ (handleEvents c fa pending).1) ∧
    Call.FileClose d.ev d.closeErr ∈ (handleEvents c fa pending).1 ∧
    Call.Log .Error "FA: wrong metadata version" ∈ (handleEvents c fa pending).1 ∧
    ∃ before after, (handleEvents c fa pending).1 =
      before ++ [Call.GetEvent (.event d), Call.Log .Debug "event info",
                 Call.Log .Error "FA: wrong metadata version",
                 Call.FileClose d.ev d.closeErr] ++ after := by
  have hblock := mismatch_block_of_getEvent c fa pending d hread hver
  refine ⟨?_, fileClose_of_getEvent c fa pending d hread, ?_, hblock⟩
  · intro allow err hmem
    have hr : (d.ev, allow) ∈ responses (handleEvents c fa pending).1 := by
      simp only [responses, List.mem_filterMap]
      exact ⟨_, hmem, rfl⟩
    exact hver (responses_handleEvents c fa pending _ hr).1
  · obtain ⟨before, after, heq⟩ := hblock
    rw [heq]
    simp

/-- C1, amended, at a concrete input: the queue holds an event of version 2
between two events of version 3. -/
theorem handleEvents_version_mismatch_witness :
    Call.GetEvent (.event evOld)
        ∈ (handleEvents linuxAmd64 faEnabled [.event evGood, .event evOld, .event evBroken]).1 ∧
    evOld.ev.Version ≠ linuxAmd64.FANOTIFY_METADATA_VERSION ∧
    ((∀ allow err, Call.Response evOld.ev allow err
        ∉ (handleEvents linuxAmd64 faEnabled [.event evGood, .event evOld, .event evBroken]).1) ∧
     Call.FileClose evOld.ev evOld.closeErr
        ∈ (handleEvents linuxAmd64 faEnabled [.event evGood, .event evOld, .event evBroken]).1 ∧
     Call.Log .Error "FA: wrong metadata version"
        ∈ (handleEvents linuxAmd64 faEnabled [.event evGood, .event evOld, .event evBroken]).1 ∧
     ∃ before after,
      (handleEvents linuxAmd64 faEnabled [.event evGood, .event evOld, .event evBroken]).1 =
        before ++ [Call.GetEvent (.event evOld), Call.Log .Debug "event info",
                   Call.Log .Error "FA: wrong metadata version",
                   Call.FileClose evOld.ev evOld.closeErr] ++ after) :=
  ⟨by decide, by decide,
   handleEvents_version_mismatch linuxAmd64 faEnabled
     [.event evGood, .event evOld, .event evBroken] evOld (by decide) (by decide)⟩

/-- C2, the code at the failing input: every response `handleEvents` sends
carries the verdict `allow = false`; for an open-permission event of pid 500
with the expected metadata version the one response sent is
`Response(ev, false)`, followed by the log line "response allow ok". -/
theorem handleEvents_verdict_is_false :
    (∀ (c : Consts) (fa : FileAccessCtrl) (pending : List GetEventResult),
      (responses (handleEvents c fa pending).1).all (fun r => !r.2) = true) ∧
    responses (handleEvents linuxAmd64 faEnabled [.event evGood]).1 = [(evGood.ev, false)] ∧
    handleEvent linuxAmd64 evGood =
      [Call.GetEvent (.event evGood), Call.Log .Debug "event info", Call.Lock,
       Call.Response evGood.ev false none, Call.Log .Debug "response allow ok", Call.Unlock,
       Call.FileClose evGood.ev none] := by
  refine ⟨?_, by decide, by decide⟩
  intro c fa pending
  rw [List.all_eq_true]
  intro r hr
  simp [(responses_handleEvents c fa pending r hr).2]

/-- C3: in every call of `handleEvents`, whatever the queue holds (events of
the expected version, events of another version, responses or closes that
fail), the trace obeys the file-handle discipline: after an event is read its
file is closed exactly once, any response for it comes before the close, and
the next read comes after the close; the files closed are exactly the events
read, in order. -/
theorem handleEvents_closes_each_file_once (c : Consts) (fa : FileAccessCtrl)
    (pending : List GetEventResult) :
    fileRun .idle (handleEvents c fa pending).1 = some .idle ∧
    fileCloses (handleEvents c fa pending).1 = eventsRead (handleEvents c fa pending).1 :=
  ⟨fileRun_handleEvents c fa pending, fileCloses_handleEvents c fa pending⟩

/-- C4: while the controller is enabled, for a queue of events of the expected
metadata version followed by a failing read, the events answered are exactly
the events of the queue, in the order read; the reads made are those events
and the failing read, at which the loop stops, leaving the rest of the queue
untouched.  When the queue holds the events only, the read that stops the
loop is the one that finds it empty. -/
theorem handleEvents_answers_in_order (c : Consts) (fa : FileAccessCtrl)
    (ds : List Delivery) (e : Errno) (rest : List GetEventResult)
    (hb : fa.bEnabled = true)
    (hv : ∀ d ∈ ds, d.ev.Version = c.FANOTIFY_METADATA_VERSION) :
    ((responses (handleEvents c fa (ds.map .event ++ .fail e :: rest)).1).map Prod.fst
        = ds.map (fun d => d.ev) ∧
     reads (handleEvents c fa (ds.map .event ++ .fail e :: rest)).1
        = ds.map .event ++ [.fail e] ∧
     (handleEvents c fa (ds.map .event ++ .fail e :: rest)).2 = rest) ∧
    ((responses (handleEvents c fa (ds.map .event)).1).map Prod.fst = ds.map (fun d => d.ev) ∧
     reads (handleEvents c fa (ds.map .event)).1 = ds.map .event ++ [.fail c.EAGAIN]) := by
  obtain ⟨h1, h2, h3⟩ := handleEvents_events_then_fail c fa hb ds e rest
  obtain ⟨_, k2, k3⟩ := handleEvents_events_only c fa hb ds
  rw [filter_version_of_all c ds hv] at h3 k3
  refine ⟨⟨?_, h2, h1⟩, ?_, k2⟩
  · rw [h3, List.map_map]; rfl
  · rw [k3, List.map_map]; rfl

/-- C4 at a concrete input: two events of the expected version, then a read
failing with `EAGAIN`, then a further event that is not reached. -/
theorem handleEvents_answers_in_order_witness :
    faEnabled.bEnabled = true ∧
    (∀ d ∈ [evGood, evBroken], d.ev.Version = linuxAmd64.FANOTIFY_METADATA_VERSION) ∧
    (responses (handleEvents linuxAmd64 faEnabled
        ([evGood, evBroken].map .event ++ .fail 11 :: [.event evGood])).1).map Prod.fst
      = [evGood.ev, evBroken.ev] :=
  ⟨rfl, by decide,
   (handleEvents_answers_in_order linuxAmd64 faEnabled [evGood, evBroken] 11 [.event evGood]
      rfl (by decide)).1.1⟩

/-! ## Marks, probes and construction -/

theorem markCalls_addDirMarksLoop (c : Consts) (fa : FileAccessCtrl) (ppath : String)
    (mk : Nat → Option Errno) (n : Nat) (dirs : List String) :
    markCalls (addDirMarksLoop c fa ppath (fun k => mk (k + n)) dirs) =
      (dirs.enumFrom n).map fun p =>
        Call.Mark c.FAN_MARK_ADD (fa.cflag ||| c.FAN_EVENT_ON_CHILD) c.AT_FDCWD
          (ppath ++ p.2) (mk p.1) := by
  induction dirs generalizing n with
  | nil => simp [addDirMarksLoop, markCalls]
  | cons dir dirs ih =>
    have hshift : (fun k => mk (k + 1 + n)) = fun k => mk (k + (n + 1)) := by
      funext k
      congr 1
      omega
    have := ih (n + 1)
    simp only [markCalls] at this ⊢
    cases h0 : mk n <;>
      simp [addDirMarksLoop, List.enumFrom_cons, List.filter_cons, Call.isMark, h0, hshift, this]

theorem isSupportOpenPerm_eq (c : Consts) (selfPid : Int) (mk : Nat → Option Errno) :
    ((isSupportOpenPerm c selfPid mk).1 = true ↔ mk 0 = none) ∧
    markCalls (isSupportOpenPerm c selfPid mk).2 =
      [Call.Mark c.FAN_MARK_ADD c.FAN_OPEN_PERM c.AT_FDCWD (procRootMountPoint selfPid) (mk 0),
       Call.Mark c.FAN_MARK_REMOVE c.FAN_OPEN_PERM c.AT_FDCWD (procRootMountPoint selfPid)
         (mk 1)] := by
  cases h0 : mk 0 <;> simp [isSupportOpenPerm, markCalls, Call.isMark, List.filter_cons, h0]

theorem isSupportExecPerm_eq (c : Consts) (selfPid : Int) (mk : Nat → Option Errno) :
    ((isSupportExecPerm c selfPid mk).1 = true ↔ mk 0 = none) ∧
    markCalls (isSupportExecPerm c selfPid mk).2 =
      [Call.Mark c.FAN_MARK_ADD c.FAN_OPEN_EXEC_PERM c.AT_FDCWD (procRootMountPoint selfPid)
         (mk 0),
       Call.Mark c.FAN_MARK_REMOVE c.FAN_OPEN_EXEC_PERM c.AT_FDCWD (procRootMountPoint selfPid)
         (mk 1)] := by
  cases h0 : mk 0 <;> simp [isSupportExecPerm, markCalls, Call.isMark, List.filter_cons, h0]

/-- C7: for every pid, every list of directories and every stream of `Mark`
results, `addDirMarks` returns `(true, len(dirs))` and its `Mark` calls are
exactly one per directory, in list order, the i-th with op `FAN_MARK_ADD`,
mask `cflag | FAN_EVENT_ON_CHILD`, dirfd `AT_FDCWD`, path `/proc/<pid>/root`
followed by the directory, whatever the results of the earlier calls. -/
theorem addDirMarks_one_mark_per_dir (c : Consts) (fa : FileAccessCtrl)
    (mk : Nat → Option Errno) (pid : Int) (dirs : List String) :
    (addDirMarks c fa mk pid dirs).1 = (true, dirs.length) ∧
    (markCalls (addDirMarks c fa mk pid dirs).2).length = dirs.length ∧
    markCalls (addDirMarks c fa mk pid dirs).2 =
      dirs.enum.map fun p =>
        Call.Mark c.FAN_MARK_ADD (fa.cflag ||| c.FAN_EVENT_ON_CHILD) c.AT_FDCWD
          ("/proc/" ++ toString pid ++ "/root" ++ p.2) (mk p.1) := by
  have h := markCalls_addDirMarksLoop c fa (procRootMountPoint pid) mk 0 dirs
  have hm : markCalls (addDirMarks c fa mk pid dirs).2 =
      dirs.enum.map fun p =>
        Call.Mark c.FAN_MARK_ADD (fa.cflag ||| c.FAN_EVENT_ON_CHILD) c.AT_FDCWD
          ("/proc/" ++ toString pid ++ "/root" ++ p.2) (mk p.1) := by
    simp only [Nat.add_zero] at h
    simp only [addDirMarks, markCalls, List.filter_cons, Call.isMark]
    simpa [markCalls, List.enum, procRootMountPoint] using h
  refine ⟨rfl, ?_, hm⟩
  rw [hm]
  simp

theorem NewFileAccessCtrl_init_error (c : Consts) (selfPid : Int) (e : Errno)
    (mk : Nat → Option Errno) :
    (NewFileAccessCtrl c selfPid (.error e) mk).ok = false ∧
    (NewFileAccessCtrl c selfPid (.error e) mk).fa = none ∧
    Call.Go ∉ (NewFileAccessCtrl c selfPid (.error e) mk).calls ∧
    markCalls (NewFileAccessCtrl c selfPid (.error e) mk).calls = [] := by
  simp [NewFileAccessCtrl, markCalls, Call.isMark, List.filter_cons]

theorem NewFileAccessCtrl_probe_error (c : Consts) (selfPid : Int) (fn : NotifyFD)
    (mk : Nat → Option Errno) (e : Errno) (h0 : mk 0 = some e) :
    (NewFileAccessCtrl c selfPid (.ok fn) mk).ok = false ∧
    (NewFileAccessCtrl c selfPid (.ok fn) mk).fa = none ∧
    Call.Go ∉ (NewFileAccessCtrl c selfPid (.ok fn) mk).calls ∧
    markCalls (NewFileAccessCtrl c selfPid (.ok fn) mk).calls =
      [Call.Mark c.FAN_MARK_ADD c.FAN_OPEN_PERM c.AT_FDCWD (procRootMountPoint selfPid) (some e),
       Call.Mark c.FAN_MARK_REMOVE c.FAN_OPEN_PERM c.AT_FDCWD (procRootMountPoint selfPid)
         (mk 1)] := by
  simp [NewFileAccessCtrl, isSupportOpenPerm, markCalls, Call.isMark, List.filter_cons, h0]

theorem NewFileAccessCtrl_success (c : Consts) (selfPid : Int) (fn : NotifyFD)
    (mk : Nat → Option Errno) (h0 : mk 0 = none) :
    (NewFileAccessCtrl c selfPid (.ok fn) mk).ok = true ∧
    (NewFileAccessCtrl c selfPid (.ok fn) mk).fa =
      some { bEnabled := true, fanfd := some fn, roots := [], lastReportPid := 0, marks := 0,
             cflag := if mk 2 = none then c.FAN_OPEN_PERM ||| c.FAN_OPEN_EXEC_PERM
                      else c.FAN_OPEN_PERM } ∧
    markCalls (NewFileAccessCtrl c selfPid (.ok fn) mk).calls =
      [Call.Mark c.FAN_MARK_ADD c.FAN_OPEN_PERM c.AT_FDCWD (procRootMountPoint selfPid) (mk 0),
       Call.Mark c.FAN_MARK_REMOVE c.FAN_OPEN_PERM c.AT_FDCWD (procRootMountPoint selfPid)
         (mk 1),
       Call.Mark c.FAN_MARK_ADD c.FAN_OPEN_EXEC_PERM c.AT_FDCWD (procRootMountPoint selfPid)
         (mk 2),
       Call.Mark c.FAN_MARK_REMOVE c.FAN_OPEN_EXEC_PERM c.AT_FDCWD (procRootMountPoint selfPid)
         (mk 3),
       Call.Mark c.FAN_MARK_ADD
         ((if mk 2 = none then c.FAN_OPEN_PERM ||| c.FAN_OPEN_EXEC_PERM else c.FAN_OPEN_PERM)
           ||| c.FAN_EVENT_ON_CHILD)
         c.AT_FDCWD (procRootMountPoint selfPid ++ "/root/go") (mk 4)] := by
  cases h2 : mk 2 <;> cases h4 : mk 4 <;>
    simp [NewFileAccessCtrl, isSupportOpenPerm, isSupportExecPerm, addDirMarks, addDirMarksLoop,
      markCalls, Call.isMark, List.filter_cons, h0, h2, h4]

/-- C5: `NewFileAccessCtrl` returns `ok = true` exactly when `Initialize`
succeeds and the first `Mark` call, the add of `FAN_OPEN_PERM` on
`/proc/<self-pid>/root`, succeeds, whatever the later `Mark` calls return;
when it returns `ok = false` the controller returned is nil, the pump has not
been started, and the only `Mark` calls made are at most the probe's failed
add and its remove: no directory mark has been added. -/
theorem NewFileAccessCtrl_ok_iff (c : Consts) (selfPid : Int) (init : Except Errno NotifyFD)
    (mk : Nat → Option Errno) :
    ((NewFileAccessCtrl c selfPid init mk).ok = true ↔
      (∃ fn, init = .ok fn) ∧ mk 0 = none) ∧
    ((NewFileAccessCtrl c selfPid init mk).ok = false →
      (NewFileAccessCtrl c selfPid init mk).fa = none ∧
      Call.Go ∉ (NewFileAccessCtrl c selfPid init mk).calls ∧
      (markCalls (NewFileAccessCtrl c selfPid init mk).calls = [] ∨
       ∃ e, mk 0 = some e ∧
        markCalls (NewFileAccessCtrl c selfPid init mk).calls =
          [Call.Mark c.FAN_MARK_ADD c.FAN_OPEN_PERM c.AT_FDCWD (procRootMountPoint selfPid)
             (some e),
           Call.Mark c.FAN_MARK_REMOVE c.FAN_OPEN_PERM c.AT_FDCWD (procRootMountPoint selfPid)
             (mk 1)])) := by
  cases init with
  | error e =>
    obtain ⟨h1, h2, h3, h4⟩ := NewFileAccessCtrl_init_error c selfPid e mk
    refine ⟨?_, fun _ => ⟨h2, h3, Or.inl h4⟩⟩
    simp [h1]
  | ok fn =>
    cases h0 : mk 0 with
    | some e =>
      obtain ⟨h1, h2, h3, h4⟩ := NewFileAccessCtrl_probe_error c selfPid fn mk e h0
      refine ⟨?_, fun _ => ⟨h2, h3, Or.inr ⟨e, rfl, h4⟩⟩⟩
      simp [h1]
    | none =>
      obtain ⟨h1, _, _⟩ := NewFileAccessCtrl_success c selfPid fn mk h0
      refine ⟨?_, fun h => ?_⟩
      · simp [h1]
      · rw [h1] at h
        exact absurd h (by decide)

/-- C5 at a concrete input: the notifier is initialised and the kernel rejects
the add of `FAN_OPEN_PERM` with `EINVAL`. -/
theorem NewFileAccessCtrl_ok_iff_witness :
    (NewFileAccessCtrl linuxAmd64 42 (.ok ⟨3⟩) (fun k => if k = 0 then some 22 else none)).ok
      = false ∧
    (NewFileAccessCtrl linuxAmd64 42 (.ok ⟨3⟩) (fun k => if k = 0 then some 22 else none)).fa
      = none ∧
    Call.Go ∉
      (NewFileAccessCtrl linuxAmd64 42 (.ok ⟨3⟩) (fun k => if k = 0 then some 22 else none)).calls :=
  ⟨by decide,
   ((NewFileAccessCtrl_ok_iff linuxAmd64 42 (.ok ⟨3⟩)
      (fun k => if k = 0 then some 22 else none)).2 (by decide)).1,
   ((NewFileAccessCtrl_ok_iff linuxAmd64 42 (.ok ⟨3⟩)
      (fun k => if k = 0 then some 22 else none)).2 (by decide)).2.1⟩

/-- C6: each probe issues an add-mark and then a remove-mark with the same
mask (`FAN_OPEN_PERM`, respectively `FAN_OPEN_EXEC_PERM`) on
`/proc/<self-pid>/root` and reports success exactly when the add succeeded,
whatever the remove returns; after a successful `NewFileAccessCtrl` the
controller's `cflag` is `FAN_OPEN_PERM | FAN_OPEN_EXEC_PERM` when the add of
the exec-perm probe (the third `Mark` call) succeeded and `FAN_OPEN_PERM`
when it failed, and the directory mark on `/root/go` is issued with that
mask plus `FAN_EVENT_ON_CHILD`. -/
theorem NewFileAccessCtrl_cflag (c : Consts) (selfPid : Int) (init : Except Errno NotifyFD)
    (mk : Nat → Option Errno)
    (hok : (NewFileAccessCtrl c selfPid init mk).ok = true) :
    (((isSupportOpenPerm c selfPid mk).1 = true ↔ mk 0 = none) ∧
     markCalls (isSupportOpenPerm c selfPid mk).2 =
      [Call.Mark c.FAN_MARK_ADD c.FAN_OPEN_PERM c.AT_FDCWD ("/proc/" ++ toString selfPid ++ "/root")
         (mk 0),
       Call.Mark c.FAN_MARK_REMOVE c.FAN_OPEN_PERM c.AT_FDCWD
         ("/proc/" ++ toString selfPid ++ "/root") (mk 1)]) ∧
    (((isSupportExecPerm c selfPid (fun k => mk (k + 2))).1 = true ↔ mk 2 = none) ∧
     markCalls (isSupportExecPerm c selfPid (fun k => mk (k + 2))).2 =
      [Call.Mark c.FAN_MARK_ADD c.FAN_OPEN_EXEC_PERM c.AT_FDCWD
         ("/proc/" ++ toString selfPid ++ "/root") (mk 2),
       Call.Mark c.FAN_MARK_REMOVE c.FAN_OPEN_EXEC_PERM c.AT_FDCWD
         ("/proc/" ++ toString selfPid ++ "/root") (mk 3)]) ∧
    (∃ fa, (NewFileAccessCtrl c selfPid init mk).fa = some fa ∧
      fa.cflag = (if mk 2 = none then c.FAN_OPEN_PERM ||| c.FAN_OPEN_EXEC_PERM
                  else c.FAN_OPEN_PERM) ∧
      markCalls (NewFileAccessCtrl c selfPid init mk).calls =
        markCalls (isSupportOpenPerm c selfPid mk).2 ++
        markCalls (isSupportExecPerm c selfPid (fun k => mk (k + 2))).2 ++
        [Call.Mark c.FAN_MARK_ADD (fa.cflag ||| c.FAN_EVENT_ON_CHILD) c.AT_FDCWD
           ("/proc/" ++ toString selfPid ++ "/root" ++ "/root/go") (mk 4)]) := by
  have hopen := isSupportOpenPerm_eq c selfPid mk
  have hexec := isSupportExecPerm_eq c selfPid (fun k => mk (k + 2))
  simp only [Nat.zero_add, Nat.reduceAdd, procRootMountPoint] at hopen hexec
  refine ⟨hopen, hexec, ?_⟩
  cases init with
  | error e =>
    rw [(NewFileAccessCtrl_init_error c selfPid e mk).1] at hok
    exact absurd hok (by decide)
  | ok fn =>
    cases h0 : mk 0 with
    | some e =>
      rw [(NewFileAccessCtrl_probe_error c selfPid fn mk e h0).1] at hok
      exact absurd hok (by decide)
    | none =>
      obtain ⟨_, h2, h3⟩ := NewFileAccessCtrl_success c selfPid fn mk h0
      refine ⟨_, h2, rfl, ?_⟩
      rw [h3, hopen.2, hexec.2, h0]
      simp [procRootMountPoint]

/-- C6 at a concrete input: the kernel accepts open-perm and rejects the add of
exec-perm with `EINVAL`; the effective mask is `FAN_OPEN_PERM` alone. -/
theorem NewFileAccessCtrl_cflag_witness :
    (NewFileAccessCtrl linuxAmd64 42 (.ok ⟨3⟩) (fun k => if k = 2 then some 22 else none)).ok
      = true ∧
    ∃ fa, (NewFileAccessCtrl linuxAmd64 42 (.ok ⟨3⟩)
        (fun k => if k = 2 then some 22 else none)).fa = some fa ∧
      fa.cflag = 0x10000 :=
  ⟨by decide,
   match (NewFileAccessCtrl_cflag linuxAmd64 42 (.ok ⟨3⟩)
      (fun k => if k = 2 then some 22 else none) (by decide)).2.2 with
   | ⟨fa, h1, h2, _⟩ => ⟨fa, h1, by rw [h2]; decide⟩⟩

/-! ## The event pump -/

theorem monitorStep_snd (c : Consts) (fa : FileAccessCtrl) (w : Nat) (p : PollResult)
    (q : List GetEventResult) :
    (monitorStep c fa w p q).2 =
      if p.err ≠ none ∧ p.err ≠ some c.EINTR then none
      else if p.n ≤ 0 then
        if p.n = 0 ∧ fa.bEnabled = false then (if 1 ≤ w then none else some (w + 1))
        else some w
      else if p.revents &&& c.POLLIN ≠ 0 then some 0 else some w := by
  unfold monitorStep
  split_ifs <;> simp_all

theorem monitorLoop_left_iff (c : Consts) (fa : FileAccessCtrl) (w : Nat) (ts : List Tick) :
    (monitorLoop c fa w ts).2 = true ↔ loopState c fa w ts = none := by
  induction ts generalizing w with
  | nil => simp [monitorLoop, loopState]
  | cons t ts ih =>
    simp only [monitorLoop, loopState]
    rcases hstep : monitorStep c { fa with bEnabled := t.bEnabled } w t.poll t.pending
      with ⟨calls, _ | w1⟩
    · simp
    · simpa using ih w1

theorem loopState_append (c : Consts) (fa : FileAccessCtrl) (w : Nat) (a b : List Tick) :
    loopState c fa w (a ++ b) = (loopState c fa w a).bind fun w1 => loopState c fa w1 b := by
  induction a generalizing w with
  | nil => simp [loopState]
  | cons t a ih =>
    simp only [List.cons_append, loopState]
    cases (monitorStep c { fa with bEnabled := t.bEnabled } w t.poll t.pending).2 with
    | none => simp
    | some w1 => simpa using ih w1

theorem loopState_singleton (c : Consts) (fa : FileAccessCtrl) (w : Nat) (t : Tick) :
    loopState c fa w [t] =
      (monitorStep c { fa with bEnabled := t.bEnabled } w t.poll t.pending).2 := by
  simp only [loopState]
  cases (monitorStep c { fa with bEnabled := t.bEnabled } w t.poll t.pending).2 <;> rfl

/-- An earlier draining timeout after which the events were not handled
again, seen from the end of a list of turns extended by one turn. -/
theorem drainTimeout_pending_concat (c : Consts) (q : List Tick) (u : Tick) :
    (∃ a s b, q ++ [u] = a ++ s :: b ∧ s.poll.n = 0 ∧ s.bEnabled = false ∧
        ∀ x ∈ b, ¬ Tick.handled c x) ↔
    (u.poll.n = 0 ∧ u.bEnabled = false) ∨
    ((∃ a s b, q = a ++ s :: b ∧ s.poll.n = 0 ∧ s.bEnabled = false ∧
        ∀ x ∈ b, ¬ Tick.handled c x) ∧ ¬ Tick.handled c u) := by
  constructor
  · rintro ⟨a, s, b, hq, hn, hb, hall⟩
    rcases List.eq_nil_or_concat b with rfl | ⟨b1, x, rfl⟩
    · have h := List.append_inj' (hq : q ++ [u] = a ++ [s]) rfl
      have hus : u = s := by simpa using h.2
      subst hus
      exact Or.inl ⟨hn, hb⟩
    · have hq2 : q ++ [u] = (a ++ s :: b1) ++ [x] := by
        rw [hq]; simp [List.concat_eq_append]
      have h := List.append_inj' hq2 rfl
      have hux : u = x := by simpa using h.2
      subst hux
      refine Or.inr ⟨⟨a, s, b1, h.1, hn, hb, ?_⟩, ?_⟩
      · intro y hy
        exact hall y (by simp [List.concat_eq_append, hy])
      · exact hall u (by simp [List.concat_eq_append])
  · rintro (⟨hn, hb⟩ | ⟨⟨a, s, b, hq, hn, hb, hall⟩, hu⟩)
    · exact ⟨q, u, [], rfl, hn, hb, by simp⟩
    · refine ⟨a, s, b ++ [u], by simp [hq], hn, hb, ?_⟩
      intro y hy
      rcases List.mem_append.1 hy with hy | hy
      · exact hall y hy
      · have : y = u := by simpa using hy
        subst this
        exact hu

/-- The grace counter of a loop that is still running: it is 0 or 1, and it
is 1 exactly when a draining timeout occurred after which the events were not
handled again. -/
theorem loopState_counter (c : Consts) (fa : FileAccessCtrl) (pre : List Tick) :
    ∀ w, loopState c fa 0 pre = some w →
      w ≤ 1 ∧
      (w = 1 ↔ ∃ a s b, pre = a ++ s :: b ∧ s.poll.n = 0 ∧ s.bEnabled = false ∧
          ∀ x ∈ b, ¬ Tick.handled c x) := by
  induction pre using List.reverseRecOn with
  | nil =>
    intro w hw
    simp only [loopState, Option.some.injEq] at hw
    subst hw
    simp
  | append_singleton q u ih =>
    intro w hw
    rw [loopState_append] at hw
    cases hq : loopState c fa 0 q with
    | none => simp [hq] at hw
    | some w1 =>
      obtain ⟨hle, hiff⟩ := ih w1 hq
      rw [hq, Option.some_bind, loopState_singleton, monitorStep_snd] at hw
      rw [drainTimeout_pending_concat, ← hiff]
      unfold Tick.handled
      split_ifs at hw with h1 h2 h3 h4 h5
      · obtain ⟨hn, hb⟩ := h3
        simp only [Option.some.injEq] at hw
        have hb2 : u.bEnabled = false := hb
        have : w1 = 0 := by omega
        subst this
        subst hw
        simp [hn, hb2]
      · simp only [Option.some.injEq] at hw
        subst hw
        have hb2 : ¬ (u.poll.n = 0 ∧ u.bEnabled = false) := h3
        have hneg : ¬ (0 < u.poll.n ∧ u.poll.revents &&& c.POLLIN ≠ 0) := by
          intro h; omega
        simp only [hb2, hneg, not_false_eq_true, and_true, false_or]
        exact hle
      · simp only [Option.some.injEq] at hw
        subst hw
        have hn0 : ¬ u.poll.n = 0 := by omega
        have hpos : 0 < u.poll.n := by omega
        simp [hn0, hpos, h5]
      · simp only [Option.some.injEq] at hw
        subst hw
        have hn0 : ¬ u.poll.n = 0 := by omega
        simp only [hn0, false_and, h5, not_true_eq_false, and_false, not_false_eq_true,
          and_true, false_or]
        exact hle

theorem close_not_mem_handleEvent (c : Consts) (d : Delivery) :
    Call.Close ∉ handleEvent c d := by
  unfold handleEvent
  by_cases h : d.ev.Version = c.FANOTIFY_METADATA_VERSION
  · cases hr : d.respErr <;> cases hc : d.closeErr <;> simp [h]
  · cases hc : d.closeErr <;> simp [h]

theorem close_not_mem_handleEvents (c : Consts) (fa : FileAccessCtrl)
    (pending : List GetEventResult) : Call.Close ∉ (handleEvents c fa pending).1 := by
  cases hb : fa.bEnabled with
  | false => simp [handleEvents_disabled c fa pending hb]
  | true =>
    induction pending with
    | nil => simp [handleEvents_nil c fa hb]
    | cons r rest ih =>
      cases r with
      | fail e => simp [handleEvents_cons_fail c fa e rest hb]
      | event d =>
        rw [handleEvents_cons_event c fa d rest hb]
        simp only [List.mem_append, not_or]
        exact ⟨close_not_mem_handleEvent c d, ih⟩

theorem close_not_mem_monitorStep (c : Consts) (fa : FileAccessCtrl) (w : Nat)
    (p : PollResult) (q : List GetEventResult) :
    Call.Close ∉ (monitorStep c fa w p q).1 := by
  have h := close_not_mem_handleEvents c fa q
  unfold monitorStep
  split_ifs <;> simp [h]

theorem close_not_mem_monitorLoop (c : Consts) (fa : FileAccessCtrl) (w : Nat)
    (ts : List Tick) : Call.Close ∉ (monitorLoop c fa w ts).1 := by
  induction ts generalizing w with
  | nil => simp [monitorLoop]
  | cons t ts ih =>
    have hstep := close_not_mem_monitorStep c { fa with bEnabled := t.bEnabled } w t.poll
      t.pending
    simp only [monitorLoop]
    rcases hs : monitorStep c { fa with bEnabled := t.bEnabled } w t.poll t.pending
      with ⟨calls, _ | w1⟩
    · rw [hs] at hstep
      simpa using hstep
    · rw [hs] at hstep
      simp only [List.mem_append, not_or]
      exact ⟨hstep, ih w1⟩

/-! ## The claims on the event pump -/

/-- C8, counterexample: the controller is draining throughout; the poll times
out, is then interrupted by a signal (`EINTR`), then times out again.  The
loop is still running after the first two outcomes and ends on the third, a
timeout whose predecessor is not a timeout: it is not the second of two
consecutive timeouts. -/
theorem monitorLoop_ends_on_separated_timeouts :
    (monitorLoop linuxAmd64 faDraining 0 [tickDrainTimeout, tickDrainEintr]).2 = false ∧
    (monitorLoop linuxAmd64 faDraining 0
      [tickDrainTimeout, tickDrainEintr, tickDrainTimeout]).2 = true ∧
    tickDrainEintr.poll.n ≠ 0 ∧
    tickDrainEintr.poll.err = some linuxAmd64.EINTR ∧
    tickDrainEintr.bEnabled = false ∧ tickDrainTimeout.bEnabled = false := by
  decide

/-- C8, amended: in one turn of the loop, a poll timeout (`n = 0`, no error)
never ends the loop while the controller is enabled; a poll error other than
`EINTR` always ends it; `EINTR` (which comes with `n = -1`) never does and
leaves the grace counter as it is.  While draining, the loop ends on a
timeout exactly when an earlier draining timeout occurred and on no turn
between the two were events handled (a poll with `n > 0` and `POLLIN` set);
other outcomes between them, such as `EINTR`, do not reset the count. -/
theorem monitorLoop_exit_rule (c : Consts) (fa : FileAccessCtrl) :
    (∀ w p q, p.n = 0 → p.err = none → fa.bEnabled = true →
      (monitorStep c fa w p q).2 = some w) ∧
    (∀ w p q e, p.err = some e → e ≠ c.EINTR → (monitorStep c fa w p q).2 = none) ∧
    (∀ w p q, PollResult.wf p → p.err = some c.EINTR →
      (monitorStep c fa w p q).2 = some w) ∧
    (∀ pre t, (monitorLoop c fa 0 pre).2 = false →
      t.poll.n = 0 → t.poll.err = none → t.bEnabled = false →
      ((monitorLoop c fa 0 (pre ++ [t])).2 = true ↔
        ∃ a s b, pre = a ++ s :: b ∧ s.poll.n = 0 ∧ s.bEnabled = false ∧
          ∀ x ∈ b, ¬ Tick.handled c x)) := by
  refine ⟨?_, ?_, ?_, ?_⟩
  · intro w p q hn he hb
    rw [monitorStep_snd]
    simp [hn, he, hb]
  · intro w p q e he hne
    rw [monitorStep_snd]
    simp [he, hne]
  · intro w p q hwf he
    have hn : p.n = -1 := hwf (by simp [he])
    rw [monitorStep_snd]
    simp [he, hn]
  · intro pre t hrun hn he hb
    have hsome : loopState c fa 0 pre ≠ none := by
      intro h
      rw [(monitorLoop_left_iff c fa 0 pre).2 h] at hrun
      exact absurd hrun (by decide)
    obtain ⟨w, hw⟩ := Option.ne_none_iff_exists'.1 hsome
    obtain ⟨hle, hiff⟩ := loopState_counter c fa pre w hw
    rw [monitorLoop_left_iff, loopState_append, hw, Option.some_bind, loopState_singleton,
      monitorStep_snd, ← hiff]
    simp only [hn, he, hb]
    constructor
    · intro h
      by_contra hne
      have : ¬ 1 ≤ w := by omega
      simp [this] at h
    · intro h
      simp [h]

/-- C8, amended, at concrete inputs: a timeout while enabled, a poll failing
with `EBADF`, a poll interrupted by a signal, and the draining run timeout,
`EINTR`, timeout. -/
theorem monitorLoop_exit_rule_witness :
    (monitorStep linuxAmd64 faEnabled 1 pollTimeout []).2 = some 1 ∧
    (monitorStep linuxAmd64 faEnabled 0 pollError []).2 = none ∧
    (monitorStep linuxAmd64 faDraining 1 pollEintr []).2 = some 1 ∧
    ((monitorLoop linuxAmd64 faDraining 0
        ([tickDrainTimeout, tickDrainEintr] ++ [tickDrainTimeout])).2 = true ↔
      ∃ a s b, [tickDrainTimeout, tickDrainEintr] = a ++ s :: b ∧ s.poll.n = 0 ∧
        s.bEnabled = false ∧ ∀ x ∈ b, ¬ Tick.handled linuxAmd64 x) :=
  ⟨(monitorLoop_exit_rule linuxAmd64 faEnabled).1 1 pollTimeout [] rfl rfl rfl,
   (monitorLoop_exit_rule linuxAmd64 faEnabled).2.1 0 pollError [] 9 rfl (by decide),
   (monitorLoop_exit_rule linuxAmd64 faDraining).2.2.1 1 pollEintr []
     (fun _ => rfl) rfl,
   (monitorLoop_exit_rule linuxAmd64 faDraining).2.2.2 [tickDrainTimeout, tickDrainEintr]
     tickDrainTimeout (by decide) rfl rfl rfl⟩

/-- C9, counterexample: the controller is draining and one event of the
expected version is pending.  `handleEvents` reads nothing and answers
nothing, the event stays in the queue; the pump's turn on a readable poll
makes no `GetEvent` and no `Response` call. -/
theorem handleEvents_draining_leaves_event :
    faDraining.bEnabled = false ∧
    handleEvents linuxAmd64 faDraining [.event evGood] = ([], [.event evGood]) ∧
    reads (monitorStep linuxAmd64 faDraining 0 pollReadable [.event evGood]).1 = [] ∧
    responses (monitorStep linuxAmd64 faDraining 0 pollReadable [.event evGood]).1 = [] := by
  decide

/-- C9, amended: while the controller is draining (enabled flag false),
`handleEvents` reads no event and sends no response, whatever is pending: it
makes no call at all and leaves the queue as it is; a turn of the pump in
that state makes no `GetEvent` and no `Response` call. -/
theorem handleEvents_draining (c : Consts) (fa : FileAccessCtrl)
    (pending : List GetEventResult) (h : fa.bEnabled = false) :
    handleEvents c fa pending = ([], pending) ∧
    ∀ w p, reads (monitorStep c fa w p pending).1 = [] ∧
      responses (monitorStep c fa w p pending).1 = [] := by
  refine ⟨handleEvents_disabled c fa pending h, ?_⟩
  intro w p
  have hd := handleEvents_disabled c fa pending h
  unfold monitorStep
  split_ifs <;> simp [hd, reads, responses, Call.read?, Call.response?]

/-- C9, amended, at a concrete input: a draining controller with two events
pending. -/
theorem handleEvents_draining_witness :
    faDraining.bEnabled = false ∧
    handleEvents linuxAmd64 faDraining [.event evGood, .event evBroken]
      = ([], [.event evGood, .event evBroken]) :=
  ⟨rfl, (handleEvents_draining linuxAmd64 faDraining [.event evGood, .event evBroken] rfl).1⟩

/-- C10: whenever `monitorFilePermissionEvents` leaves its loop, on a poll
error or on the expired grace period, and the controller holds a notifier,
the trace has the notifier's `Close` exactly once: no `Close` comes before
it, and what the pump does after it is no notifier operation (no `GetEvent`,
`Response`, `Mark`, `Initialize` or second `Close`). -/
theorem monitor_closes_notifier_once (c : Consts) (fa : FileAccessCtrl) (nd : NotifyFD)
    (ticks : List Tick) (hfd : fa.fanfd = some nd)
    (hleft : (monitorFilePermissionEvents c fa ticks).2 = true) :
    List.count Call.Close (monitorFilePermissionEvents c fa ticks).1 = 1 ∧
    ∃ before after, (monitorFilePermissionEvents c fa ticks).1 = before ++ Call.Close :: after ∧
      Call.Close ∉ before ∧ ∀ x ∈ after, Call.isNotifierOp x = false := by
  have hno := close_not_mem_monitorLoop c fa 0 ticks
  unfold monitorFilePermissionEvents at hleft ⊢
  rcases hl : monitorLoop c fa 0 ticks with ⟨calls, left⟩
  rw [hl] at hno hleft
  cases left with
  | false => simp at hleft
  | true =>
    have hcount : List.count Call.Close calls = 0 := List.count_eq_zero.2 hno
    refine ⟨?_, Call.Log .Info "FA: start" :: calls, [Call.Log .Info "FA: exit"], ?_, ?_, ?_⟩
    · simp [monitorExit, hfd, List.count_cons, List.count_append, hcount]
    · simp [monitorExit, hfd]
    · simpa using hno
    · simp [Call.isNotifierOp]

/-- C10 at concrete inputs: the pump handles one event and then the poll
fails with `EBADF`. -/
theorem monitor_closes_notifier_once_witness :
    faEnabled.fanfd = some ⟨3⟩ ∧
    (monitorFilePermissionEvents linuxAmd64 faEnabled [tickEvent, tickError]).2 = true ∧
    List.count Call.Close
      (monitorFilePermissionEvents linuxAmd64 faEnabled [tickEvent, tickError]).1 = 1 :=
  ⟨rfl, by decide,
   (monitor_closes_notifier_once linuxAmd64 faEnabled ⟨3⟩ [tickEvent, tickError] rfl
      (by decide)).1⟩

end Fanotify
